import Mathlib

/-!
Verification of the Player-Ledger Engine of `bot.py` (a Discord/Firestore
baseball roster manager).  The Python string, parsing, merge, alias and
roster-maintenance functions are shallowly embedded here; strings are
modelled as lists of Unicode code points (`Str := List Nat`) so that the
ASCII-level behaviour of `str.strip`, `str.lower`, `str.split` and the
regular expressions used by the source can be reproduced exactly.
-/

namespace Bot

/-- A Python string, as its list of code points. -/
abbrev Str := List Nat

/-- Code points of a Lean string literal (used to write concrete inputs). -/
def str (s : String) : Str := s.data.map Char.toNat

/-- Python `str.strip` / `\s` whitespace classes: space, tab, LF, VT, FF, CR. -/
def isWs (c : Nat) : Bool := c = 32 || c = 9 || c = 10 || c = 11 || c = 12 || c = 13

/-- ASCII decimal digit (`\d` for the source's pitch-power regexes). -/
def isDigit (c : Nat) : Bool := 48 ≤ c && c ≤ 57

/-- `str.lower` on one code point (ASCII letters; the source's nicknames). -/
def lowerChar (c : Nat) : Nat := if 65 ≤ c ∧ c ≤ 90 then c + 32 else c

/-- Python `s.lstrip()`. -/
def lstrip (s : Str) : Str := s.dropWhile isWs

/-- Python `s.rstrip()`. -/
def rstrip (s : Str) : Str := (s.reverse.dropWhile isWs).reverse

/-- Python `s.strip()`. -/
def strip (s : Str) : Str := rstrip (lstrip s)

/-- Python `s.lower()`. -/
def lower (s : Str) : Str := s.map lowerChar

/-- Python `s.rstrip(",")` (44 = `,`). -/
def rstripComma (s : Str) : Str := (s.reverse.dropWhile (fun c => c = 44)).reverse

/-- One step of the right fold behind `splitOnChar`. -/
def splitStep (sep : Nat) (c : Nat) (acc : List Str) : List Str :=
  if c = sep then [] :: acc
  else match acc with
    | [] => [[c]]
    | h :: t => (c :: h) :: t

/-- Python `s.split(sep)` for a one-character separator: keeps empty fields. -/
def splitOnChar (sep : Nat) (s : Str) : List Str :=
  s.foldr (splitStep sep) [[]]

/-- Maximal runs of characters on which `p` is false (Python `s.split()` with
`p = isWs`, and the token scan of `parse_pitch_line` with `p = ws-or-comma`). -/
def splitRuns (p : Nat → Bool) (s : Str) : List Str :=
  (s.foldr (fun c acc =>
    if p c then [] :: acc
    else match acc with
      | [] => [[c]]
      | h :: t => (c :: h) :: t) [[]]).filter (fun r => !r.isEmpty)

/-- Python `" ".join(parts)` (32 = space). -/
def joinSpace (parts : List Str) : Str := List.intercalate [32] parts

/-- `normalize_nick` from bot.py: `nick.strip().lower()`. -/
def normalize_nick (nick : Str) : Str := lower (strip nick)

/-- `"Free"` — the default/unassigned team name used throughout bot.py. -/
def strFree : Str := str "Free"

/-- `"FA"` — the team that `delete_team_cmd` moves roster members to. -/
def strFA : Str := str "FA"

/-- `normalize_team_name` from bot.py.  The Python parameter may be any
falsy value (`None` or `""`), hence the `Option`:
`if not team: return "Free"` then `" ".join(team.strip().split())`. -/
def normalize_team_name (team : Option Str) : Str :=
  match team with
  | none => strFree
  | some t => if t.isEmpty then strFree else joinSpace (splitRuns isWs (strip t))

/-- `DEFAULT_PITCH_POWER` (env default `"20"`). -/
def DEFAULT_PITCH_POWER : Nat := 20

/-- Code points of `"(20)"`, the suffix `normalize_pitch_token` appends. -/
def defaultPowerSuffix : Str := str "(20)"

/-- `pitch_base_name` from bot.py: `re.match(r'^([^\(]+)', pitch)` yields the
maximal nonempty run before the first `(` (40 = `(`); if the pitch starts
with `(` or is empty the regex fails and the whole string is stripped. -/
def pitch_base_name (pitch : Str) : Str :=
  let pre := pitch.takeWhile (fun c => c ≠ 40)
  if pre.isEmpty then strip pitch else strip pre

/-- `pitch_has_power` from bot.py: `re.search(r'\(\s*\d+\s*\)$', pitch)`.
Checked from the end of the string: `)` (41), optional whitespace, one or
more digits, optional whitespace, `(` (40). -/
def pitch_has_power (pitch : Str) : Bool :=
  match pitch.reverse with
  | 41 :: rest =>
    let r1 := rest.dropWhile isWs
    let ds := r1.takeWhile isDigit
    if ds.isEmpty then false
    else
      match (r1.dropWhile isDigit).dropWhile isWs with
      | 40 :: _ => true
      | _ => false
  | _ => false

/-- `normalize_pitch_token` from bot.py:
empty token stays empty; else strip and drop trailing commas; if the token
already ends in a `( power )` group, delete all whitespace
(`re.sub(r'\s+','',t)`); otherwise append `(DEFAULT_PITCH_POWER)` to the
base name. -/
def normalize_pitch_token (tok : Str) : Str :=
  if tok.isEmpty then []
  else
    let t := rstripComma (strip tok)
    if pitch_has_power t then t.filter (fun c => !isWs c)
    else pitch_base_name t ++ defaultPowerSuffix

/-- `parse_pitch_line` from bot.py.  The `re.findall` pattern
`([^\s,]+(?:\(\s*\d+\s*\))?|[^\s,]+)` scans out exactly the maximal runs of
non-whitespace, non-comma characters (the optional power group can never
extend a maximal run).  Each token is then stripped of whitespace and
trailing commas, normalized, and kept if nonempty. -/
def parse_pitch_line (pitch_line : Str) : List Str :=
  if pitch_line.isEmpty then []
  else
    (splitRuns (fun c => isWs c || c = 44) (strip pitch_line)).foldl
      (fun out tok =>
        let tok := rstripComma (strip tok)
        if tok.isEmpty then out
        else
          let norm := normalize_pitch_token tok
          if norm.isEmpty then out else out ++ [norm]) []

/-- The result of parsing one input block (`parse_block_to_player`):
`team = none` when no team token was given. -/
structure Parsed where
  nickname : Str
  name : Str
  team : Option Str
  position : Str
  pitch_types : List Str
  form : Str
deriving DecidableEq, Repr

/-- The optional header group `(?:\s*\(([^)]*)\))?` (and its `[...]` twin):
skip whitespace, then an opening character, the maximal run without the
closing character, and the closing character; on success return the inner
text and the remainder, otherwise consume nothing. -/
def matchHeaderGroup (openC closeC : Nat) (s : Str) : Option Str × Str :=
  match s.dropWhile isWs with
  | c :: tl =>
    if c = openC then
      let inner := tl.takeWhile (fun d => d ≠ closeC)
      match tl.drop inner.length with
      | d :: tl2 => if d = closeC then (some inner, tl2) else (none, s)
      | [] => (none, s)
    else (none, s)
  | [] => (none, s)

/-- `parse_block_to_player` from bot.py.  A single line containing `|` (124)
is the delimited form `nick|name|team|position|pitches|form`; otherwise the
header line is matched against
`^\s*([^\s\(\[]+)(?:\s*\(([^)]*)\))?(?:\s*\[([^\]]*)\])?(.*)$` and the
remaining lines are pitch text.  When that regex fails, the anchored
fallback `^([^\s\(\[]+)` can never succeed either (the first regex already
skips leading whitespace), so the block falls through to
`nickname = first.strip()`, `rest = ""`. -/
def parse_block_to_player (block_lines : List Str) : Parsed :=
  let first := block_lines.headD []
  if block_lines.length = 1 ∧ 124 ∈ first then
    let parts := splitOnChar 124 first
    let nickname := strip (parts.getD 0 [])
    let name0 := if 2 ≤ parts.length then strip (parts.getD 1 []) else []
    let team :=
      if 3 ≤ parts.length then
        let t := strip (parts.getD 2 [])
        if t.isEmpty then none else some (normalize_team_name (some t))
      else none
    let position :=
      if 4 ≤ parts.length ∧ ¬(strip (parts.getD 3 [])).isEmpty then strip (parts.getD 3 [])
      else str "N/A"
    let pitch_types :=
      if 5 ≤ parts.length ∧ ¬(strip (parts.getD 4 [])).isEmpty then
        (splitOnChar 44 (parts.getD 4 [])).foldl
          (fun acc p => if (strip p).isEmpty then acc
                        else acc ++ [normalize_pitch_token (strip p)]) []
      else []
    let form :=
      if 6 ≤ parts.length ∧ ¬(strip (parts.getD 5 [])).isEmpty then strip (parts.getD 5 [])
      else []
    { nickname := nickname, name := if name0.isEmpty then nickname else name0,
      team := team, position := position, pitch_types := pitch_types, form := form }
  else
    let s0 := first.dropWhile isWs
    let g1 := s0.takeWhile (fun c => !isWs c && c ≠ 40 && c ≠ 91)
    let (nickname, form, team, rest) :=
      if g1.isEmpty then
        (strip first, ([] : Str), (none : Option Str), ([] : Str))
      else
        let r1 := s0.drop g1.length
        let (g2, r2) := matchHeaderGroup 40 41 r1
        let (g3, r3) := matchHeaderGroup 91 93 r2
        let team := match g3 with
          | some s => if s.isEmpty then none
                      else some (normalize_team_name (some (strip s)))
          | none => none
        (strip g1, strip (g2.getD []), team, strip r3)
    let pitch_text_parts :=
      (if rest.isEmpty then [] else [rest]) ++
      (if 2 ≤ block_lines.length then [joinSpace (block_lines.drop 1)] else [])
    let pitch_text := strip (joinSpace (pitch_text_parts.filter (fun p => !p.isEmpty)))
    { nickname := nickname, name := nickname, team := team, position := str "N/A",
      pitch_types := if pitch_text.isEmpty then [] else parse_pitch_line pitch_text,
      form := form }

/-- A stored player document (Firestore `players` collection).  Timestamps
are abstract ticks and `created_by` an opaque actor id. -/
structure Player where
  nickname : Str
  name : Str
  team : Str
  position : Str
  pitch_types : List Str
  form : Str
  status : Option Str
  created_at : Nat
  updated_at : Nat
  created_by : Nat
deriving DecidableEq, Repr

/-- A stored team document (`teams` collection). -/
structure Team where
  name : Str
  roster : List Str
deriving DecidableEq, Repr

/-- The Firestore state used by the ledger: players, teams, alias documents
(the value is the alias's `current` field) and game-record documents
(payload abstracted to a tag). -/
structure DB where
  players : List (Str × Player)
  teams : List (Str × Team)
  aliases : List (Str × Str)
  records : List (Str × Nat)
deriving DecidableEq, Repr

/-- Document lookup in a collection. -/
def lookup (l : List (Str × α)) (k : Str) : Option α :=
  match l with
  | [] => none
  | (k', v) :: t => if k' = k then some v else lookup t k

/-- `doc_ref.set(v)` — create or replace a document. -/
def setDoc (l : List (Str × α)) (k : Str) (v : α) : List (Str × α) :=
  match l with
  | [] => [(k, v)]
  | (k', v') :: t => if k' = k then (k, v) :: t else (k', v') :: setDoc t k v

/-- `doc_ref.delete()`. -/
def deleteDoc (l : List (Str × α)) (k : Str) : List (Str × α) :=
  match l with
  | [] => []
  | (k', v) :: t => if k' = k then deleteDoc t k else (k', v) :: deleteDoc t k

/-- `firestore.ArrayUnion([y])` on a stored array field. -/
def arrayUnion (xs : List Str) (y : Str) : List Str :=
  if y ∈ xs then xs else xs ++ [y]

/-- `firestore.ArrayRemove([y])` on a stored array field. -/
def arrayRemove (xs : List Str) (y : Str) : List Str :=
  xs.filter (fun x => x ≠ y)

/-- `team_doc_ref` from bot.py keys the `teams` collection by
`normalize_team_name(teamname)`. -/
def team_docid (teamname : Str) : Str := normalize_team_name (some teamname)

/-- The outcome of the alias-document fetch inside `resolve_nick`'s `try`:
the store may raise, the document may be absent, or it carries an optional
`current` field. -/
inductive FetchResult where
  | raised : FetchResult
  | absent : FetchResult
  | found : Option Str → FetchResult
deriving DecidableEq, Repr

/-- `resolve_nick` from bot.py over an abstract alias fetch:
`norm = normalize_nick(nick)`; on a successful fetch with a truthy
`current` field return `normalize_nick(current)`, otherwise `norm`; if the
fetch raises, the `except` branch returns `normalize_nick(nick)`. -/
def resolve_nick_fetch (fetch : Str → FetchResult) (nick : Str) : Str :=
  let norm := normalize_nick nick
  match fetch norm with
  | .raised => normalize_nick nick
  | .absent => norm
  | .found cur =>
    match cur with
    | some c => if c.isEmpty then norm else normalize_nick c
    | none => norm

/-- `resolve_nick` against the in-model alias table (no store failure). -/
def resolve_nick (db : DB) (nick : Str) : Str :=
  resolve_nick_fetch
    (fun k => match lookup db.aliases k with
      | some c => .found (some c)
      | none => .absent) nick

/-- The pitch-append loop of `add_one_cmd` (bot.py lines 576–582):
`appended = existing[:]`, `existing_bases = [pitch_base_name(p) ...]`, and
each draft pitch is appended only when its base name is not yet present. -/
def append_step (st : List Str × List Str) (p : Str) : List Str × List Str :=
  let base := pitch_base_name p
  if base ∈ st.2 then st else (st.1 ++ [p], st.2 ++ [base])

def append_pitches (existing_pitches new_pitches : List Str) : List Str :=
  (new_pitches.foldl append_step
    (existing_pitches, existing_pitches.map pitch_base_name)).1

/-- The update dictionary applied to an existing player by `add_one_cmd`
(bot.py lines 583–592): pitches appended; `team` overwritten only when the
draft specified one (`parsed["team"] or "Free"`); `form`, `position`,
`name` overwritten only when truthy in the draft. -/
def add_one_merge_existing (existing : Player) (parsed : Parsed) (now : Nat) : Player :=
  { existing with
    pitch_types := append_pitches existing.pitch_types parsed.pitch_types
    updated_at := now
    team := match parsed.team with
            | some t => if t.isEmpty then strFree else t
            | none => existing.team
    form := if parsed.form.isEmpty then existing.form else parsed.form
    position := if parsed.position.isEmpty then existing.position else parsed.position
    name := if parsed.name.isEmpty then existing.name else parsed.name }

/-- Result of `nickchange_cmd` (`!닉변`). `failed` is the outer `except`
branch (reached when the unguarded roster `ArrayUnion` update raises on a
missing team document). -/
inductive NickOutcome where
  | notFoundOld : NickOutcome
  | alreadyExists : NickOutcome
  | ok : NickOutcome
  | failed : NickOutcome
deriving DecidableEq, Repr

/-- The game-record migration and alias write at the end of
`nickchange_cmd` (bot.py lines 909–917): `records_doc_ref` resolves through
the alias table, the old record (if any) is copied then deleted, and the
alias document `normalize_nick(oldnick) → normalize_nick(newnick)` is
written. -/
def nickchangeRecordsAlias (db : DB) (oldnick newnick : Str) : DB :=
  let recOldId := resolve_nick db oldnick
  let db :=
    match lookup db.records recOldId with
    | some payload =>
      let recNewId := resolve_nick db newnick
      { db with records := deleteDoc (setDoc db.records recNewId payload) recOldId }
    | none => db
  { db with aliases := setDoc db.aliases (normalize_nick oldnick) (normalize_nick newnick) }

/-- `nickchange_cmd` from bot.py (lines 882–921).  The old document is read
at `normalize_nick(oldnick)` (not resolved); the rename is rejected when a
player document already exists at `normalize_nick(newnick)`.  Otherwise the
document is copied to the new id with `nickname := newnick`, the old id is
deleted, roster membership is migrated (the `ArrayRemove` is wrapped in
`try/except pass`, the `ArrayUnion` is not), records are moved and the
alias entry is written. -/
def nickchange (db : DB) (oldnick newnick : Str) (now : Nat) : DB × NickOutcome :=
  match lookup db.players (normalize_nick oldnick) with
  | none => (db, .notFoundOld)
  | some old =>
    match lookup db.players (normalize_nick newnick) with
    | some _ => (db, .alreadyExists)
    | none =>
      let data := { old with nickname := newnick, updated_at := now }
      let db1 := { db with
        players := deleteDoc (setDoc db.players (normalize_nick newnick) data)
                             (normalize_nick oldnick) }
      let team := data.team
      if team.isEmpty then
        (nickchangeRecordsAlias db1 oldnick newnick, .ok)
      else
        let tid := team_docid team
        let db2 :=
          match lookup db1.teams tid with
          | some t =>
            let ts := setDoc db1.teams tid { t with roster := arrayRemove t.roster (normalize_nick oldnick) }
            { db1 with teams := ts }
          | none => db1
        match lookup db2.teams tid with
        | none => (db2, .failed)
        | some t =>
          let ts := setDoc db2.teams tid { t with roster := arrayUnion t.roster (normalize_nick newnick) }
          let db3 := { db2 with teams := ts }
          (nickchangeRecordsAlias db3 oldnick newnick, .ok)

/-- Result of `trade_cmd` (`!트레이드`). -/
inductive TradeOutcome where
  | notFound : TradeOutcome
  | ok : TradeOutcome
  | failed : TradeOutcome
deriving DecidableEq, Repr

/-- A Firestore `team_doc_ref(tname).update({"roster": f(...)})`: raises
(error value = unchanged collection) when the document is absent. -/
def rosterStep (ts : List (Str × Team)) (tname : Str) (f : List Str → List Str) :
    Except (List (Str × Team)) (List (Str × Team)) :=
  match lookup ts (team_docid tname) with
  | some t => .ok (setDoc ts (team_docid tname) { t with roster := f t.roster })
  | none => .error ts

/-- The four guarded roster updates of `trade_cmd` (bot.py lines 1222–1229),
in source order; an error aborts the remaining updates (the exception
propagates to the command's `except`). -/
def tradeRosters (ts : List (Str × Team)) (t1 t2 i1 i2 : Str) :
    Except (List (Str × Team)) (List (Str × Team)) :=
  let step1 :=
    if t1.isEmpty then Except.ok ts
    else
      match rosterStep ts t1 (fun r => arrayRemove r (normalize_nick i1)) with
      | .error e => .error e
      | .ok ts1 =>
        if t2.isEmpty then .ok ts1
        else rosterStep ts1 t2 (fun r => arrayUnion r (normalize_nick i1))
  match step1 with
  | .error e => .error e
  | .ok ts2 =>
    if t2.isEmpty then .ok ts2
    else
      match rosterStep ts2 t2 (fun r => arrayRemove r (normalize_nick i2)) with
      | .error e => .error e
      | .ok ts3 =>
        if t1.isEmpty then .ok ts3
        else rosterStep ts3 t1 (fun r => arrayUnion r (normalize_nick i2))

/-- `trade_cmd` from bot.py (lines 1209–1232).  Both teams are read from
the two resolved player documents before any write; each player document
then gets the other's original team, and the roster updates run. -/
def trade (db : DB) (nick1 nick2 : Str) (now : Nat) : DB × TradeOutcome :=
  let i1 := resolve_nick db nick1
  let i2 := resolve_nick db nick2
  match lookup db.players i1, lookup db.players i2 with
  | some p1, some p2 =>
    let t1 := p1.team
    let t2 := p2.team
    let players1 :=
      match lookup db.players i1 with
      | some q => setDoc db.players i1 { q with team := t2, updated_at := now }
      | none => db.players
    let players2 :=
      match lookup players1 i2 with
      | some q => setDoc players1 i2 { q with team := t1, updated_at := now }
      | none => players1
    let db' := { db with players := players2 }
    match tradeRosters db'.teams t1 t2 i1 i2 with
    | .ok ts => ({ db' with teams := ts }, .ok)
    | .error ts => ({ db' with teams := ts }, .failed)
  | _, _ => (db, .notFound)

/-- Result of `delete_team_cmd` (`!팀삭제`): the reconciliation report
(moved members, per-member errors, error sample capped at 10). -/
inductive DeleteTeamOutcome where
  | notFound : DeleteTeamOutcome
  | done : List Str → List Str → List Str → DeleteTeamOutcome
deriving DecidableEq, Repr

/-- One iteration of the `delete_team_cmd` member loop (bot.py lines
1161–1172), inside its per-member `try/except`: a missing player document
adds an error entry; otherwise the player's `team` is set to `"FA"` and the
id is added to the `"FA"` roster (error entry if that document vanished). -/
structure DelState where
  players : List (Str × Player)
  teams : List (Str × Team)
  moved : List Str
  errors : List Str
deriving DecidableEq, Repr

def delete_team_step (now : Nat) (st : DelState) (nick_norm : Str) : DelState :=
  match lookup st.players nick_norm with
  | none => { st with errors := st.errors ++ [nick_norm] }
  | some p =>
    let players := setDoc st.players nick_norm { p with team := strFA, updated_at := now }
    match lookup st.teams (team_docid strFA) with
    | some fa =>
      { st with players := players,
                teams := setDoc st.teams (team_docid strFA)
                  { fa with roster := arrayUnion fa.roster (normalize_nick nick_norm) },
                moved := st.moved ++ [nick_norm] }
    | none => { st with players := players, errors := st.errors ++ [nick_norm] }

/-- `delete_team_cmd` from bot.py (lines 1144–1184): the `"FA"` team
document is merge-created, each roster member is moved to `"FA"`
best-effort, the team document is deleted, and the report carries the moved
list, the error count and an error sample capped at 10 entries. -/
def delete_team (db : DB) (teamname : Str) (now : Nat) : DB × DeleteTeamOutcome :=
  let team_norm := normalize_team_name (some teamname)
  match lookup db.teams (team_docid team_norm) with
  | none => (db, .notFound)
  | some t =>
    let teams0 :=
      match lookup db.teams (team_docid strFA) with
      | some fa => setDoc db.teams (team_docid strFA) { fa with name := strFA }
      | none => setDoc db.teams (team_docid strFA) { name := strFA, roster := [] }
    let st := t.roster.foldl (delete_team_step now)
      { players := db.players, teams := teams0, moved := [], errors := [] }
    let teams1 := deleteDoc st.teams (team_docid team_norm)
    ({ db with players := st.players, teams := teams1 },
     .done st.moved st.errors (st.errors.take 10))

/-- The summary embed of `bulk_register_cmd`: total block count, success
count, error count, and the error sample `errors[:10]` (entries modelled by
their 1-based block index). -/
structure RegSummary where
  total : Nat
  succeeded : Nat
  failed : Nat
  failSample : List Nat
deriving DecidableEq, Repr

/-- One block of `bulk_register_cmd`'s loop (bot.py lines 673–719): parse,
resolve, optionally verify brand-new nicknames against the `mcValid`
oracle (failure → error entry, block skipped), compute the stored team
(`parsed team` if specified else the old team, `"Free"` for a brand-new
record), replace the player document, and merge-create the team document
and roster entry.  Returns the updated state plus this block's outcome. -/
def bulk_block (verify : Bool) (mcValid : Str → Bool) (createdBy now : Nat)
    (db : DB) (block : List Str) : DB × Option Str :=
  let p := parse_block_to_player block
  let raw_nick := p.nickname
  let target_norm := resolve_nick db raw_nick
  match lookup db.players target_norm with
  | some old =>
    let team_val := match p.team with
      | some t => t
      | none => old.team
    let data : Player :=
      { nickname := if target_norm = normalize_nick raw_nick then raw_nick else target_norm,
        name := p.name, team := team_val, position := p.position,
        pitch_types := p.pitch_types, form := p.form, status := none,
        created_at := old.created_at, updated_at := now, created_by := old.created_by }
    let db := { db with players := setDoc db.players target_norm data }
    let db :=
      if data.team.isEmpty then db
      else
        let tid := team_docid data.team
        let teams0 := match lookup db.teams tid with
          | some t => setDoc db.teams tid { t with name := data.team }
          | none => setDoc db.teams tid { name := data.team, roster := [] }
        let teams1 := match lookup teams0 tid with
          | some t => setDoc teams0 tid { t with roster := arrayUnion t.roster (normalize_nick target_norm) }
          | none => teams0
        { db with teams := teams1 }
    (db, some target_norm)
  | none =>
    if verify ∧ ¬ mcValid raw_nick then (db, none)
    else
      let team_val := match p.team with
        | some t => if t.isEmpty then strFree else t
        | none => strFree
      let data : Player :=
        { nickname := if target_norm = normalize_nick raw_nick then raw_nick else target_norm,
          name := p.name, team := team_val, position := p.position,
          pitch_types := p.pitch_types, form := p.form, status := none,
          created_at := now, updated_at := now, created_by := createdBy }
      let db := { db with players := setDoc db.players target_norm data }
      let db :=
        if data.team.isEmpty then db
        else
          let tid := team_docid data.team
          let teams0 := match lookup db.teams tid with
            | some t => setDoc db.teams tid { t with name := data.team }
            | none => setDoc db.teams tid { name := data.team, roster := [] }
          let teams1 := match lookup teams0 tid with
            | some t => setDoc teams0 tid { t with roster := arrayUnion t.roster (normalize_nick target_norm) }
            | none => teams0
          { db with teams := teams1 }
      (db, some target_norm)

/-- The block loop of `bulk_register_cmd`: each block is processed inside
its own `try/except`, so every block is attempted and yields exactly one
outcome — `added` entry on success, `errors` entry (its 1-based index) on
failure. -/
def bulk_loop (verify : Bool) (mcValid : Str → Bool) (createdBy now : Nat) :
    DB → Nat → List (List Str) → List Str → List Nat → DB × List Str × List Nat
  | db, _, [], added, errors => (db, added, errors)
  | db, i, block :: rest, added, errors =>
    match bulk_block verify mcValid createdBy now db block with
    | (db', some target) => bulk_loop verify mcValid createdBy now db' (i + 1) rest (added ++ [target]) errors
    | (db', none) => bulk_loop verify mcValid createdBy now db' (i + 1) rest added (errors ++ [i])

/-- `bulk_register_cmd` from bot.py (lines 646–733): run the block loop on
the split input and report the summary embed. -/
def bulk_register (verify : Bool) (mcValid : Str → Bool) (createdBy now : Nat)
    (db : DB) (blocks : List (List Str)) : DB × List Str × List Nat × RegSummary :=
  let (db', added, errors) := bulk_loop verify mcValid createdBy now db 1 blocks [] []
  (db', added, errors,
   { total := blocks.length, succeeded := added.length, failed := errors.length,
     failSample := errors.take 10 })

/-- The roster of an optional team document (empty when absent). -/
def rosterOf (t : Option Team) : List Str :=
  match t with
  | some t => t.roster
  | none => []

/-! ### Concrete fixtures for scenario runs -/

/-- A minimal stored player on the given team. -/
def pFixture (nick team : Str) : Player :=
  { nickname := nick
    name := nick
    team := team
    position := str "N/A"
    pitch_types := []
    form := []
    status := none
    created_at := 0
    updated_at := 0
    created_by := 7 }

/-- One player `oldname` on the `Free` team, no aliases. -/
def dbRename : DB :=
  { players := [(str "oldname", pFixture (str "oldname") strFree)]
    teams := [(strFree, { name := strFree, roster := [str "oldname"] })]
    aliases := []
    records := [] }

/-- State after `!닉변 oldname newname`. -/
def dbRename1 : DB := (nickchange dbRename (str "oldname") (str "newname") 1).1

/-- State after a second `!닉변 newname third`. -/
def dbRename2 : DB := (nickchange dbRename1 (str "newname") (str "third") 2).1

/-- One player `bob` on team `Red`, whose roster lists him. -/
def dbDelTeam : DB :=
  { players := [(str "bob", pFixture (str "bob") (str "Red"))]
    teams := [(str "Red", { name := str "Red", roster := [str "bob"] })]
    aliases := []
    records := [] }

/-- `alice` on `Red` and `bobby` on `Blue`, consistent rosters. -/
def dbTrade : DB :=
  { players := [(str "alice", pFixture (str "alice") (str "Red")),
                (str "bobby", pFixture (str "bobby") (str "Blue"))]
    teams := [(str "Red", { name := str "Red", roster := [str "alice"] }),
              (str "Blue", { name := str "Blue", roster := [str "bobby"] })]
    aliases := []
    records := [] }

/-- Two stored players, used to drive a rename onto an occupied id. -/
def dbTwoPlayers : DB :=
  { players := [(str "mark", pFixture (str "mark") strFree),
                (str "luke", pFixture (str "luke") strFree)]
    teams := []
    aliases := []
    records := [] }

/-! ### Store lemmas -/

theorem lookup_setDoc_self (l : List (Str × α)) (k : Str) (v : α) :
    lookup (setDoc l k v) k = some v := by
  induction l with
  | nil => simp [setDoc, lookup]
  | cons kv t ih =>
    obtain ⟨k', v'⟩ := kv
    by_cases h : k' = k
    · simp [setDoc, h, lookup]
    · simp [setDoc, h, lookup, ih]

theorem lookup_setDoc_ne (l : List (Str × α)) (k k' : Str) (v : α) (h : k ≠ k') :
    lookup (setDoc l k v) k' = lookup l k' := by
  induction l with
  | nil => simp [setDoc, lookup, h]
  | cons kv t ih =>
    obtain ⟨k'', v''⟩ := kv
    by_cases hk : k'' = k
    · subst hk
      simp [setDoc, lookup, h]
    · simp [setDoc, hk, lookup, ih]

theorem lookup_deleteDoc_self (l : List (Str × α)) (k : Str) :
    lookup (deleteDoc l k) k = none := by
  induction l with
  | nil => simp [deleteDoc, lookup]
  | cons kv t ih =>
    obtain ⟨k', v'⟩ := kv
    by_cases h : k' = k
    · simpa [deleteDoc, h] using ih
    · simp [deleteDoc, h, lookup, ih]

theorem lookup_deleteDoc_ne (l : List (Str × α)) (k k' : Str) (h : k ≠ k') :
    lookup (deleteDoc l k) k' = lookup l k' := by
  induction l with
  | nil => simp [deleteDoc, lookup]
  | cons kv t ih =>
    obtain ⟨k'', v''⟩ := kv
    by_cases hk : k'' = k
    · subst hk
      have hne : ¬ k'' = k' := h
      simp [deleteDoc, lookup, hne, ih]
    · have hks : ¬ k' = k := fun hh => h hh.symm
      by_cases h2 : k'' = k'
      · simp [deleteDoc, hk, lookup, h2, hks]
      · simp [deleteDoc, hk, lookup, h2, ih]

theorem mem_arrayUnion_self (xs : List Str) (y : Str) : y ∈ arrayUnion xs y := by
  by_cases h : y ∈ xs <;> simp [arrayUnion, h]

theorem mem_arrayUnion_of_mem (xs : List Str) (y x : Str) (h : x ∈ xs) :
    x ∈ arrayUnion xs y := by
  by_cases hy : y ∈ xs <;> simp [arrayUnion, hy, h]

theorem not_mem_arrayRemove_self (xs : List Str) (y : Str) : y ∉ arrayRemove xs y := by
  simp [arrayRemove]

theorem mem_arrayRemove_of_mem (xs : List Str) (y x : Str) (h : x ∈ xs) (hne : x ≠ y) :
    x ∈ arrayRemove xs y := by
  simp [arrayRemove, h, hne]

theorem not_mem_arrayUnion (xs : List Str) (y x : Str) (h : x ∉ xs) (hne : x ≠ y) :
    x ∉ arrayUnion xs y := by
  by_cases hy : y ∈ xs <;> simp [arrayUnion, hy, h, hne]

theorem not_mem_arrayRemove (xs : List Str) (y x : Str) (h : x ∉ xs) :
    x ∉ arrayRemove xs y := by
  simp [arrayRemove]
  intro hx
  exact absurd hx h

/-! ### String lemmas -/

theorem dropWhile_idem (p : α → Bool) (l : List α) :
    (l.dropWhile p).dropWhile p = l.dropWhile p := by
  induction l with
  | nil => rfl
  | cons a t ih =>
    by_cases h : p a
    · simp [List.dropWhile_cons, h, ih]
    · simp [List.dropWhile_cons, h]

theorem dropWhile_eq_nil_of_all (p : α → Bool) :
    ∀ (l : List α), (∀ c ∈ l, p c = true) → l.dropWhile p = []
  | [], _ => rfl
  | a :: t, h => by
    have ha := h a (by simp)
    rw [List.dropWhile_cons, if_pos ha]
    exact dropWhile_eq_nil_of_all p t (fun c hc => h c (by simp [hc]))

theorem length_dropWhile_le (p : α → Bool) (l : List α) :
    (l.dropWhile p).length ≤ l.length := by
  induction l with
  | nil => simp
  | cons a t ih =>
    rw [List.dropWhile_cons]
    cases h : p a
    · simp
    · simp only [if_pos rfl]
      calc (t.dropWhile p).length ≤ t.length := ih
        _ ≤ (a :: t).length := by simp

theorem lowerChar_of_upper (c : Nat) (h : 65 ≤ c ∧ c ≤ 90) : lowerChar c = c + 32 :=
  if_pos h

theorem lowerChar_of_not_upper (c : Nat) (h : ¬(65 ≤ c ∧ c ≤ 90)) : lowerChar c = c :=
  if_neg h

theorem lowerChar_idem (c : Nat) : lowerChar (lowerChar c) = lowerChar c := by
  by_cases h : 65 ≤ c ∧ c ≤ 90
  · rw [lowerChar_of_upper c h]
    exact lowerChar_of_not_upper _ (by omega)
  · simp [lowerChar_of_not_upper c h]

theorem isWs_lowerChar (c : Nat) : isWs (lowerChar c) = isWs c := by
  by_cases h : 65 ≤ c ∧ c ≤ 90
  · rw [lowerChar_of_upper c h]
    have h1 : isWs (c + 32) = false := by
      simp only [isWs, Bool.or_eq_false_iff, decide_eq_false_iff_not]
      omega
    have h2 : isWs c = false := by
      simp only [isWs, Bool.or_eq_false_iff, decide_eq_false_iff_not]
      omega
    rw [h1, h2]
  · rw [lowerChar_of_not_upper c h]

theorem strip_nil : strip ([] : Str) = [] := rfl

theorem lstrip_idem (s : Str) : lstrip (lstrip s) = lstrip s :=
  dropWhile_idem isWs s

theorem rstrip_idem (s : Str) : rstrip (rstrip s) = rstrip s := by
  unfold rstrip
  rw [List.reverse_reverse, dropWhile_idem]

/-- `rstrip` takes an initial segment: the dropped whitespace tail. -/
theorem rstrip_append_tail (s : Str) :
    s = rstrip s ++ (s.reverse.takeWhile isWs).reverse := by
  unfold rstrip
  conv_lhs => rw [← List.reverse_reverse s, ← List.takeWhile_append_dropWhile (p := isWs) (l := s.reverse)]
  rw [List.reverse_append]

theorem lstrip_of_rstrip_lstrip (s : Str) :
    lstrip (rstrip (lstrip s)) = rstrip (lstrip s) := by
  cases h : rstrip (lstrip s) with
  | nil => rfl
  | cons a t =>
    have hsplit : ∃ junk, lstrip s = (a :: t) ++ junk := by
      refine ⟨(List.takeWhile isWs (lstrip s).reverse).reverse, ?_⟩
      rw [← h]
      exact rstrip_append_tail (lstrip s)
    obtain ⟨junk, hsplit⟩ := hsplit
    have hna : isWs a = false := by
      cases hw : isWs a with
      | false => rfl
      | true =>
        exfalso
        have e1 : List.dropWhile isWs (lstrip s) = lstrip s := lstrip_idem s
        rw [hsplit, List.cons_append, List.dropWhile_cons, if_pos hw] at e1
        have e2 := congrArg List.length e1
        have e3 := length_dropWhile_le isWs (t ++ junk)
        simp at e2 e3
        omega
    show List.dropWhile isWs (a :: t) = a :: t
    rw [List.dropWhile_cons, if_neg (by simp [hna])]

theorem strip_idem (s : Str) : strip (strip s) = strip s := by
  unfold strip
  rw [lstrip_of_rstrip_lstrip, rstrip_idem]

theorem dropWhile_map_lower (s : Str) :
    (s.map lowerChar).dropWhile isWs = (s.dropWhile isWs).map lowerChar := by
  induction s with
  | nil => rfl
  | cons a t ih =>
    by_cases h : isWs a
    · simp [List.dropWhile_cons, h, isWs_lowerChar, ih]
    · simp [List.dropWhile_cons, h, isWs_lowerChar]

theorem lstrip_lower (s : Str) : lstrip (lower s) = lower (lstrip s) :=
  dropWhile_map_lower s

theorem rstrip_lower (s : Str) : rstrip (lower s) = lower (rstrip s) := by
  unfold rstrip lower
  rw [← List.map_reverse, dropWhile_map_lower, List.map_reverse]

theorem strip_lower (s : Str) : strip (lower s) = lower (strip s) := by
  unfold strip
  rw [lstrip_lower, rstrip_lower]

theorem lower_idem (s : Str) : lower (lower s) = lower s := by
  unfold lower
  rw [List.map_map]
  exact List.map_congr_left (fun c _ => lowerChar_idem c)

theorem normalize_nick_idem (s : Str) :
    normalize_nick (normalize_nick s) = normalize_nick s := by
  unfold normalize_nick
  rw [strip_lower, strip_idem, lower_idem]

/-- Unfolding equation for `resolve_nick_fetch`. -/
theorem resolve_nick_fetch_eq (fetch : Str → FetchResult) (nick : Str) :
    resolve_nick_fetch fetch nick =
      match fetch (normalize_nick nick) with
      | .raised => normalize_nick nick
      | .absent => normalize_nick nick
      | .found (some c) => if c.isEmpty then normalize_nick nick else normalize_nick c
      | .found none => normalize_nick nick := by
  simp only [resolve_nick_fetch]
  cases fetch (normalize_nick nick) with
  | raised => rfl
  | absent => rfl
  | found cur => cases cur <;> rfl

/-- Every value `resolve_nick` can return is a fixed point of
`normalize_nick`. -/
theorem normalize_resolve_nick_fetch (fetch : Str → FetchResult) (nick : Str) :
    normalize_nick (resolve_nick_fetch fetch nick) = resolve_nick_fetch fetch nick := by
  rw [resolve_nick_fetch_eq]
  cases fetch (normalize_nick nick) with
  | raised => exact normalize_nick_idem nick
  | absent => exact normalize_nick_idem nick
  | found cur =>
    cases cur with
    | some c =>
      show normalize_nick (if c.isEmpty = true then normalize_nick nick else normalize_nick c) =
        if c.isEmpty = true then normalize_nick nick else normalize_nick c
      by_cases h : c.isEmpty = true
      · rw [if_pos h]
        exact normalize_nick_idem nick
      · rw [if_neg h]
        exact normalize_nick_idem c
    | none => exact normalize_nick_idem nick

theorem normalize_resolve_nick (db : DB) (nick : Str) :
    normalize_nick (resolve_nick db nick) = resolve_nick db nick :=
  normalize_resolve_nick_fetch _ nick

/-- `resolve_nick` reads only the alias table. -/
theorem resolve_nick_eq_of_aliases (db db' : DB) (h : db'.aliases = db.aliases) (nick : Str) :
    resolve_nick db' nick = resolve_nick db nick := by
  unfold resolve_nick
  rw [h]

/-! ### Claim C10 -/

/-- C10: `normalize_team_name` has an asymmetric blank edge case: it
returns `"Free"` for `None` and for the empty string, but a nonempty
string consisting solely of whitespace is mapped to the empty string `""`,
which is neither a real team name nor the Free pool. -/
theorem normalize_team_name_blank_asymmetry (s : Str) (h1 : s ≠ [])
    (h2 : ∀ c ∈ s, isWs c = true) :
    normalize_team_name none = strFree ∧
    normalize_team_name (some []) = strFree ∧
    normalize_team_name (some s) = [] ∧ ([] : Str) ≠ strFree := by
  refine ⟨rfl, rfl, ?_, by decide⟩
  have hs : strip s = [] := by
    unfold strip lstrip rstrip
    rw [dropWhile_eq_nil_of_all isWs s h2]
    rfl
  have he : ¬ (s.isEmpty = true) := by
    cases s with
    | nil => exact absurd rfl h1
    | cons a t => simp
  show (if s.isEmpty = true then strFree else joinSpace (splitRuns isWs (strip s))) = []
  rw [if_neg he, hs]
  rfl

theorem normalize_team_name_blank_asymmetry_witness :
    normalize_team_name none = strFree ∧
    normalize_team_name (some []) = strFree ∧
    normalize_team_name (some [32]) = [] ∧ ([] : Str) ≠ strFree :=
  normalize_team_name_blank_asymmetry [32] (by decide) (by decide)

/-! ### Claim C9 -/

/-- C9: alias resolution is total and normalizing: whatever the alias
fetch does (raises, finds nothing, or finds a document with or without a
truthy `current` field), the result is a fixed point of `normalize_nick`,
and a raising fetch falls back to the normalized input. -/
theorem resolve_nick_total_and_normalized (fetch : Str → FetchResult) (nick : Str) :
    normalize_nick (resolve_nick_fetch fetch nick) = resolve_nick_fetch fetch nick ∧
    (fetch (normalize_nick nick) = FetchResult.raised →
      resolve_nick_fetch fetch nick = normalize_nick nick) := by
  refine ⟨normalize_resolve_nick_fetch fetch nick, fun h => ?_⟩
  rw [resolve_nick_fetch_eq, h]

theorem resolve_nick_total_and_normalized_witness :
    normalize_nick (resolve_nick_fetch (fun _ => FetchResult.raised) (str " BoB ")) =
      resolve_nick_fetch (fun _ => FetchResult.raised) (str " BoB ") ∧
    resolve_nick_fetch (fun _ => FetchResult.raised) (str " BoB ") =
      normalize_nick (str " BoB ") :=
  ⟨(resolve_nick_total_and_normalized (fun _ => FetchResult.raised) (str " BoB ")).1,
   (resolve_nick_total_and_normalized (fun _ => FetchResult.raised) (str " BoB ")).2 rfl⟩

/-! ### Claim C8 -/

/-- Every block contributes exactly one outcome to the bulk loop. -/
theorem bulk_loop_outcome_count (verify : Bool) (mcValid : Str → Bool) (createdBy now : Nat) :
    ∀ (blocks : List (List Str)) (db : DB) (i : Nat) (added : List Str) (errors : List Nat),
      ((bulk_loop verify mcValid createdBy now db i blocks added errors).2.1).length +
        ((bulk_loop verify mcValid createdBy now db i blocks added errors).2.2).length =
      added.length + errors.length + blocks.length := by
  intro blocks
  induction blocks with
  | nil =>
    intro db i added errors
    simp [bulk_loop]
  | cons block rest ih =>
    intro db i added errors
    rcases hb : bulk_block verify mcValid createdBy now db block with ⟨db', out⟩
    cases out with
    | some target =>
      have h := ih db' (i + 1) (added ++ [target]) errors
      simp only [bulk_loop, hb]
      simp at h ⊢
      omega
    | none =>
      have h := ih db' (i + 1) added (errors ++ [i])
      simp only [bulk_loop, hb]
      simp at h ⊢
      omega

/-- C8: batch registration attempts every block — each block yields exactly
one outcome, so the success and failure counts add up to the block count —
and the summary reports those counts plus the failure sample `errors[:10]`,
whose length is at most 10. -/
theorem bulk_register_isolation_and_summary (verify : Bool) (mcValid : Str → Bool)
    (createdBy now : Nat) (db : DB) (blocks : List (List Str)) :
    ((bulk_register verify mcValid createdBy now db blocks).2.1).length +
      ((bulk_register verify mcValid createdBy now db blocks).2.2.1).length = blocks.length ∧
    (bulk_register verify mcValid createdBy now db blocks).2.2.2 =
      { total := blocks.length,
        succeeded := ((bulk_register verify mcValid createdBy now db blocks).2.1).length,
        failed := ((bulk_register verify mcValid createdBy now db blocks).2.2.1).length,
        failSample := ((bulk_register verify mcValid createdBy now db blocks).2.2.1).take 10 } ∧
    ((bulk_register verify mcValid createdBy now db blocks).2.2.2).failSample.length ≤ 10 := by
  rcases hl : bulk_loop verify mcValid createdBy now db 1 blocks [] [] with ⟨db', added, errors⟩
  have hc := bulk_loop_outcome_count verify mcValid createdBy now blocks db 1 [] []
  rw [hl] at hc
  simp at hc
  refine ⟨?_, ?_, ?_⟩
  · simp [bulk_register, hl, hc]
  · simp [bulk_register, hl]
  · have hle : (errors.take 10).length ≤ 10 := by
      rw [List.length_take]
      omega
    simp [bulk_register, hl, hle]

/-! ### Claim C5 -/

/-- C5 counterexample: the two pitch tokens of the spec's scenario have
base names equal only up to case; the append merge keeps both entries, so
the result is not the single entry the claim demands. -/
theorem pitch_identity_case_sensitive_cex :
    lower (pitch_base_name (str "Curve(40)")) = lower (pitch_base_name (str "curve(55)")) ∧
    pitch_base_name (str "Curve(40)") ≠ pitch_base_name (str "curve(55)") ∧
    append_pitches [normalize_pitch_token (str "Curve(40)")]
        [normalize_pitch_token (str "curve(55)")] =
      [str "Curve(40)", str "curve(55)"] ∧
    ([str "Curve(40)", str "curve(55)"] : List Str).length ≠ 1 := by decide

/-- C5 amended: pitch identity during merge de-duplication is
case-sensitive — base names are compared as exact strings, so two entries
whose base names differ only in letter case are treated as distinct
pitches and both are kept (`Curve(40)` plus `curve(55)` yields two
entries, not one). -/
theorem append_pitches_case_sensitive_identity (p q : Str)
    (h : pitch_base_name q ≠ pitch_base_name p) :
    append_pitches [p] [q] = [p, q] := by
  simp [append_pitches, append_step, h]

theorem append_pitches_case_sensitive_identity_witness :
    append_pitches [str "Curve(40)"] [str "curve(55)"] =
      [str "Curve(40)", str "curve(55)"] :=
  append_pitches_case_sensitive_identity (str "Curve(40)") (str "curve(55)") (by decide)

/-! ### Claim C2 -/

/-- C2 counterexample: for a base name present in both the existing record
and the draft, the merge keeps the existing entry's power and drops the
draft's entry — the draft's power does not win. -/
theorem append_pitches_draft_power_loses_cex :
    pitch_base_name (str "Curve(55)") = pitch_base_name (str "Curve(40)") ∧
    append_pitches [str "Curve(40)"] [str "Curve(55)"] = [str "Curve(40)"] ∧
    str "Curve(40)" ≠ str "Curve(55)" := by decide

/-- Characterization of the append loop from any accumulator. -/
theorem append_pitches_go (dr : List Str) :
    ∀ acc : List Str,
      ∃ suf, (dr.foldl append_step (acc, acc.map pitch_base_name)).1 = acc ++ suf ∧
        (∀ p ∈ suf, p ∈ dr) ∧
        (∀ p ∈ suf, pitch_base_name p ∉ acc.map pitch_base_name) ∧
        (∀ p ∈ dr, pitch_base_name p ∈ (acc ++ suf).map pitch_base_name) := by
  induction dr with
  | nil =>
    intro acc
    exact ⟨[], by simp, by simp, by simp, by simp⟩
  | cons q tl ih =>
    intro acc
    by_cases hq : pitch_base_name q ∈ acc.map pitch_base_name
    · have hstep : append_step (acc, acc.map pitch_base_name) q = (acc, acc.map pitch_base_name) := by
        simp [append_step, hq]
      obtain ⟨suf, h1, h2, h3, h4⟩ := ih acc
      refine ⟨suf, ?_, ?_, h3, ?_⟩
      · rw [List.foldl_cons, hstep]
        exact h1
      · exact fun p hp => List.mem_cons_of_mem q (h2 p hp)
      · intro p hp
        rcases List.mem_cons.mp hp with hpq | hp'
        · subst hpq
          rw [List.map_append]
          exact List.mem_append_left _ hq
        · exact h4 p hp'
    · have hstep : append_step (acc, acc.map pitch_base_name) q =
          (acc ++ [q], acc.map pitch_base_name ++ [pitch_base_name q]) := by
        simp [append_step, hq]
      have hmap : acc.map pitch_base_name ++ [pitch_base_name q] =
          (acc ++ [q]).map pitch_base_name := by simp
      obtain ⟨suf, h1, h2, h3, h4⟩ := ih (acc ++ [q])
      refine ⟨q :: suf, ?_, ?_, ?_, ?_⟩
      · rw [List.foldl_cons, hstep, hmap, h1, List.append_assoc]
        rfl
      · intro p hp
        rcases List.mem_cons.mp hp with hpq | hp'
        · rw [hpq]
          exact List.mem_cons_self _ _
        · exact List.mem_cons_of_mem q (h2 p hp')
      · intro p hp
        rcases List.mem_cons.mp hp with hpq | hp'
        · subst hpq
          exact hq
        · intro hcon
          refine h3 p hp' ?_
          rw [List.map_append]
          exact List.mem_append_left _ hcon
      · intro p hp
        rcases List.mem_cons.mp hp with hpq | hp'
        · rw [hpq]
          refine List.mem_map_of_mem pitch_base_name ?_
          exact List.mem_append_right _ (List.mem_cons_self _ _)
        · have h5 := h4 p hp'
          rwa [List.append_assoc] at h5

/-- C2 amended: in append-mode merge, for every base name present in both
the existing record and the draft the existing entry (and hence its power)
is kept and the draft's entry is dropped; base names only in the existing
record are preserved verbatim, and base names only in the draft are
appended. -/
theorem append_pitches_existing_wins (ex dr : List Str) :
    ∃ suf, append_pitches ex dr = ex ++ suf ∧
      (∀ p ∈ suf, p ∈ dr) ∧
      (∀ p ∈ suf, pitch_base_name p ∉ ex.map pitch_base_name) ∧
      (∀ p ∈ dr, pitch_base_name p ∈ (ex ++ suf).map pitch_base_name) :=
  append_pitches_go dr ex

/-! ### Claim C4 -/

theorem splitOnChar_cons (sep a : Nat) (t : Str) :
    splitOnChar sep (a :: t) = splitStep sep a (splitOnChar sep t) := rfl

theorem splitOnChar_ne_nil (sep : Nat) (s : Str) : splitOnChar sep s ≠ [] := by
  induction s with
  | nil => simp [splitOnChar]
  | cons a t ih =>
    rw [splitOnChar_cons]
    unfold splitStep
    by_cases h : a = sep
    · simp [h]
    · cases hs : splitOnChar sep t with
      | nil => exact absurd hs ih
      | cons x y => simp [h]

theorem splitOnChar_sep_cons (sep : Nat) (b : Str) :
    splitOnChar sep (sep :: b) = [] :: splitOnChar sep b := by
  rw [splitOnChar_cons]
  simp [splitStep]

theorem splitOnChar_append_notMem (sep : Nat) (a b : Str) (h : sep ∉ a) :
    splitOnChar sep (a ++ b) =
      (a ++ (splitOnChar sep b).headD []) :: (splitOnChar sep b).tail := by
  induction a with
  | nil =>
    cases hb : splitOnChar sep b with
    | nil => exact absurd hb (splitOnChar_ne_nil sep b)
    | cons x y => simp [hb]
  | cons c ct ih =>
    have hc : ¬ c = sep := fun e => h (by simp [e])
    have ht : sep ∉ ct := fun hm => h (by simp [hm])
    rw [List.cons_append, splitOnChar_cons, ih ht]
    simp [splitStep, hc]

/-- `strip` of an all-whitespace string is empty. -/
theorem strip_all_ws (ws : Str) (hws : ∀ c ∈ ws, isWs c = true) : strip ws = [] := by
  unfold strip lstrip rstrip
  rw [dropWhile_eq_nil_of_all isWs ws hws]
  rfl

/-- C4 counterexample: the delimited block `bob|Bob| |C` has an explicitly
blank (whitespace) team token, yet it parses to `team = none` and the
merge keeps the stored team `Red` instead of overwriting to `Free`. -/
theorem blank_team_token_cex :
    (parse_block_to_player [str "bob|Bob| |C"]).team = none ∧
    (add_one_merge_existing (pFixture (str "bob") (str "Red"))
        (parse_block_to_player [str "bob|Bob| |C"]) 3).team = str "Red" ∧
    str "Red" ≠ strFree := by decide

/-- C4 amended: in the delimited form a present-but-blank team token is
parsed exactly like an absent one — `team = none` — so the merge leaves
the stored team unchanged; blank is conflated with unspecified, and
neither clears the team to `Free`. -/
theorem blank_team_token_treated_as_absent (existing : Player) (now : Nat) (ws : Str)
    (hws : ∀ c ∈ ws, isWs c = true) :
    (parse_block_to_player
        [str "bob" ++ 124 :: (str "Bob" ++ 124 :: (ws ++ 124 :: str "C"))]).team = none ∧
    (add_one_merge_existing existing
        (parse_block_to_player
          [str "bob" ++ 124 :: (str "Bob" ++ 124 :: (ws ++ 124 :: str "C"))]) now).team
      = existing.team := by
  have hsep : (124 : Nat) ∉ ws := by
    intro hm
    have h124 := hws 124 hm
    simp [isWs] at h124
  have h0 : splitOnChar 124 (str "C") = [str "C"] := by decide
  have h1 : splitOnChar 124 (124 :: str "C") = [[], str "C"] := by
    rw [splitOnChar_sep_cons, h0]
  have h2 : splitOnChar 124 (ws ++ 124 :: str "C") = [ws, str "C"] := by
    rw [splitOnChar_append_notMem 124 _ _ hsep, h1]
    simp
  have h3 : splitOnChar 124 (124 :: (ws ++ 124 :: str "C")) = [[], ws, str "C"] := by
    rw [splitOnChar_sep_cons, h2]
  have h4 : splitOnChar 124 (str "Bob" ++ 124 :: (ws ++ 124 :: str "C")) =
      [str "Bob", ws, str "C"] := by
    rw [splitOnChar_append_notMem 124 _ _ (by decide), h3]
    simp
  have h5 : splitOnChar 124 (124 :: (str "Bob" ++ 124 :: (ws ++ 124 :: str "C"))) =
      [[], str "Bob", ws, str "C"] := by
    rw [splitOnChar_sep_cons, h4]
  have h6 : splitOnChar 124 (str "bob" ++ 124 :: (str "Bob" ++ 124 :: (ws ++ 124 :: str "C"))) =
      [str "bob", str "Bob", ws, str "C"] := by
    rw [splitOnChar_append_notMem 124 _ _ (by decide), h5]
    simp
  have hmem : (124 : Nat) ∈ str "bob" ++ 124 :: (str "Bob" ++ 124 :: (ws ++ 124 :: str "C")) :=
    List.mem_append_right _ (List.mem_cons_self _ _)
  have hstrip := strip_all_ws ws hws
  have hteam : (parse_block_to_player
      [str "bob" ++ 124 :: (str "Bob" ++ 124 :: (ws ++ 124 :: str "C"))]).team = none := by
    simp only [parse_block_to_player, List.headD, List.length_cons, List.length_nil]
    rw [if_pos ⟨trivial, hmem⟩]
    simp [h6, hstrip]
  refine ⟨hteam, ?_⟩
  simp [add_one_merge_existing, hteam]

theorem blank_team_token_treated_as_absent_witness :
    (parse_block_to_player [str "bob" ++ 124 :: (str "Bob" ++ 124 :: ([32] ++ 124 :: str "C"))]).team
      = none ∧
    (add_one_merge_existing (pFixture (str "bob") (str "Red"))
        (parse_block_to_player
          [str "bob" ++ 124 :: (str "Bob" ++ 124 :: ([32] ++ 124 :: str "C"))]) 3).team
      = (pFixture (str "bob") (str "Red")).team :=
  blank_team_token_treated_as_absent (pFixture (str "bob") (str "Red")) 3 [32] (by decide)

/-! ### Claim C7 -/

/-- C7: when a player document already exists at the new id, `nickchange`
leaves the whole store unchanged, and — whenever the request is a genuine
rename (the old id is stored) — the reported outcome is the
already-exists rejection. -/
theorem nickchange_already_exists_rejected (db : DB) (oldnick newnick : Str) (now : Nat)
    (q : Player) (hnew : lookup db.players (normalize_nick newnick) = some q) :
    (nickchange db oldnick newnick now).1 = db ∧
    ((lookup db.players (normalize_nick oldnick)).isSome →
      (nickchange db oldnick newnick now).2 = NickOutcome.alreadyExists) := by
  unfold nickchange
  cases ho : lookup db.players (normalize_nick oldnick) with
  | none =>
    refine ⟨rfl, ?_⟩
    intro hs
    simp at hs
  | some old =>
    rw [hnew]
    exact ⟨rfl, fun _ => rfl⟩

theorem nickchange_already_exists_rejected_witness :
    (nickchange dbTwoPlayers (str "mark") (str "luke") 4).1 = dbTwoPlayers ∧
    (nickchange dbTwoPlayers (str "mark") (str "luke") 4).2 = NickOutcome.alreadyExists :=
  have h := nickchange_already_exists_rejected dbTwoPlayers (str "mark") (str "luke") 4
    (pFixture (str "luke") strFree) (by decide)
  ⟨h.1, h.2 (by decide)⟩

/-! ### Claim C3 -/

/-- C3 counterexample: after `rename("oldname","newname")` then
`rename("newname","third")`, resolving `oldname` yields `newname` — the id
of a deleted document — in one alias lookup, not the canonical id `third`
where the player document now lives; the chain was not collapsed. -/
theorem alias_chain_not_collapsed_cex :
    resolve_nick dbRename2 (str "oldname") = str "newname" ∧
    (lookup dbRename2.players (str "third")).isSome ∧
    lookup dbRename2.players (str "newname") = none ∧
    str "newname" ≠ str "third" := by decide

/-- The alias table after `nickchangeRecordsAlias` is exactly a single
`setDoc` on the old id. -/
theorem nickchangeRecordsAlias_aliases (db : DB) (oldnick newnick : Str) :
    (nickchangeRecordsAlias db oldnick newnick).aliases =
      setDoc db.aliases (normalize_nick oldnick) (normalize_nick newnick) := by
  simp only [nickchangeRecordsAlias]
  cases lookup db.records (resolve_nick db oldnick) <;> rfl

/-- C3 amended: a successful rename writes or updates only the single
alias entry `old_id → new_id`; alias entries at other keys — including
entries that point at `old_id` — are left untouched, so chains are not
collapsed and resolving the oldest name of a rename chain stops at the
intermediate id. -/
theorem nickchange_alias_single_write (db : DB) (oldnick newnick : Str) (now : Nat)
    (old : Player)
    (hold : lookup db.players (normalize_nick oldnick) = some old)
    (hnew : lookup db.players (normalize_nick newnick) = none)
    (hteam : old.team = [] ∨ (lookup db.teams (team_docid old.team)).isSome) :
    lookup ((nickchange db oldnick newnick now).1).aliases (normalize_nick oldnick) =
      some (normalize_nick newnick) ∧
    (∀ k, k ≠ normalize_nick oldnick →
      lookup ((nickchange db oldnick newnick now).1).aliases k = lookup db.aliases k) := by
  simp only [nickchange, hold, hnew]
  by_cases hte : List.isEmpty old.team = true
  · simp only [if_pos hte, nickchangeRecordsAlias_aliases]
    exact ⟨lookup_setDoc_self _ _ _, fun k hk => lookup_setDoc_ne _ _ _ _ (fun e => hk e.symm)⟩
  · have hsome : (lookup db.teams (team_docid old.team)).isSome := by
      rcases hteam with he | hs
      · exact absurd (by simp [he]) hte
      · exact hs
    rcases Option.isSome_iff_exists.mp hsome with ⟨T, hT⟩
    simp only [if_neg hte, hT, lookup_setDoc_self, nickchangeRecordsAlias_aliases]
    exact ⟨trivial, fun k hk => lookup_setDoc_ne _ _ _ _ (fun e => hk e.symm)⟩

theorem nickchange_alias_single_write_witness :
    lookup ((nickchange dbRename (str "oldname") (str "newname") 1).1).aliases
        (normalize_nick (str "oldname")) = some (normalize_nick (str "newname")) ∧
    lookup ((nickchange dbRename (str "oldname") (str "newname") 1).1).aliases (str "zzz") =
      lookup dbRename.aliases (str "zzz") :=
  have h := nickchange_alias_single_write dbRename (str "oldname") (str "newname") 1
    (pFixture (str "oldname") strFree) (by decide) (by decide) (Or.inr (by decide))
  ⟨h.1, h.2 (str "zzz") (by decide)⟩

/-! ### Claim C1 -/

/-- C1 counterexample: deleting team `Red` sends `bob` to team `"FA"`, not
`"Free"`; his id lands in the `FA` roster and no `Free` team document is
involved, while the `Red` team record is removed. -/
theorem delete_team_FA_not_Free_cex :
    (lookup ((delete_team dbDelTeam (str "Red") 5).1).players (str "bob")).map Player.team =
      some strFA ∧
    strFA ≠ strFree ∧
    normalize_nick (str "bob") ∉
      rosterOf (lookup ((delete_team dbDelTeam (str "Red") 5).1).teams strFree) ∧
    lookup ((delete_team dbDelTeam (str "Red") 5).1).teams (str "Red") = none := by decide

theorem delete_team_step_preserves_some (now : Nat) (st : DelState) (x m : Str)
    (h : (lookup st.players m).isSome) :
    (lookup (delete_team_step now st x).players m).isSome := by
  unfold delete_team_step
  cases hx : lookup st.players x with
  | none => simpa using h
  | some p =>
    cases hfa : lookup st.teams (team_docid strFA) with
    | some fa =>
      by_cases hxm : x = m
      · subst hxm
        simp [lookup_setDoc_self]
      · simpa [lookup_setDoc_ne _ _ _ _ hxm] using h
    | none =>
      by_cases hxm : x = m
      · subst hxm
        simp [lookup_setDoc_self]
      · simpa [lookup_setDoc_ne _ _ _ _ hxm] using h

theorem delete_team_step_preserves_fa (now : Nat) (st : DelState) (x : Str)
    (h : (lookup st.teams (team_docid strFA)).isSome) :
    (lookup (delete_team_step now st x).teams (team_docid strFA)).isSome := by
  unfold delete_team_step
  cases hx : lookup st.players x with
  | none => simpa using h
  | some p =>
    cases hfa : lookup st.teams (team_docid strFA) with
    | some fa => simp [lookup_setDoc_self]
    | none => simpa using h

theorem delete_team_step_preserves_done (now : Nat) (st : DelState) (x m : Str)
    (h1 : (lookup st.players m).map Player.team = some strFA)
    (h2 : normalize_nick m ∈ rosterOf (lookup st.teams (team_docid strFA))) :
    (lookup (delete_team_step now st x).players m).map Player.team = some strFA ∧
    normalize_nick m ∈ rosterOf (lookup (delete_team_step now st x).teams (team_docid strFA)) := by
  unfold delete_team_step
  cases hx : lookup st.players x with
  | none => exact ⟨h1, h2⟩
  | some p =>
    cases hfa : lookup st.teams (team_docid strFA) with
    | some fa =>
      constructor
      · by_cases hxm : x = m
        · subst hxm
          simp [lookup_setDoc_self]
        · simpa [lookup_setDoc_ne _ _ _ _ hxm] using h1
      · rw [hfa] at h2
        simp only [lookup_setDoc_self, rosterOf]
        exact mem_arrayUnion_of_mem _ _ _ h2
    | none =>
      refine ⟨?_, h2⟩
      by_cases hxm : x = m
      · subst hxm
        simp [lookup_setDoc_self]
      · simpa [lookup_setDoc_ne _ _ _ _ hxm] using h1

theorem delete_team_step_establishes (now : Nat) (st : DelState) (m : Str)
    (hp : (lookup st.players m).isSome)
    (hfa : (lookup st.teams (team_docid strFA)).isSome) :
    (lookup (delete_team_step now st m).players m).map Player.team = some strFA ∧
    normalize_nick m ∈ rosterOf (lookup (delete_team_step now st m).teams (team_docid strFA)) := by
  rcases Option.isSome_iff_exists.mp hp with ⟨p, hp'⟩
  rcases Option.isSome_iff_exists.mp hfa with ⟨fa, hfa'⟩
  unfold delete_team_step
  rw [hp', hfa']
  constructor
  · simp [lookup_setDoc_self]
  · simp only [lookup_setDoc_self, rosterOf]
    exact mem_arrayUnion_self _ _

theorem delete_team_fold_preserve (now : Nat) (m : Str) :
    ∀ (roster : List Str) (st : DelState),
      (lookup st.players m).map Player.team = some strFA →
      normalize_nick m ∈ rosterOf (lookup st.teams (team_docid strFA)) →
      ((lookup (roster.foldl (delete_team_step now) st).players m).map Player.team = some strFA ∧
       normalize_nick m ∈
         rosterOf (lookup (roster.foldl (delete_team_step now) st).teams (team_docid strFA)))
  | [], st, h1, h2 => ⟨h1, h2⟩
  | x :: rest, st, h1, h2 => by
    rw [List.foldl_cons]
    have h := delete_team_step_preserves_done now st x m h1 h2
    exact delete_team_fold_preserve now m rest _ h.1 h.2

theorem delete_team_fold_done (now : Nat) (m : Str) :
    ∀ (roster : List Str) (st : DelState),
      (lookup st.players m).isSome →
      (lookup st.teams (team_docid strFA)).isSome →
      m ∈ roster →
      ((lookup (roster.foldl (delete_team_step now) st).players m).map Player.team = some strFA ∧
       normalize_nick m ∈
         rosterOf (lookup (roster.foldl (delete_team_step now) st).teams (team_docid strFA)))
  | [], _, _, _, hm => absurd hm (List.not_mem_nil m)
  | x :: rest, st, hp, hfa, hm => by
    rw [List.foldl_cons]
    by_cases hxm : x = m
    · subst hxm
      have hdone := delete_team_step_establishes now st x hp hfa
      exact delete_team_fold_preserve now x rest _ hdone.1 hdone.2
    · have hm' : m ∈ rest := by
        rcases List.mem_cons.mp hm with he | h'
        · exact absurd he.symm hxm
        · exact h'
      exact delete_team_fold_done now m rest _
        (delete_team_step_preserves_some now st x m hp)
        (delete_team_step_preserves_fa now st x hfa) hm'

/-- C1 amended: deleting a stored team `T` (other than the `FA` pool
itself) transitions every present roster member to the `"FA"` team — not
`"Free"` — adds the member's id to the `"FA"` roster, and removes the Team
Record for `T`. -/
theorem delete_team_moves_roster_to_FA (db : DB) (teamname : Str) (now : Nat) (t : Team)
    (ht : lookup db.teams (team_docid (normalize_team_name (some teamname))) = some t)
    (hne : team_docid (normalize_team_name (some teamname)) ≠ team_docid strFA) :
    (∀ m ∈ t.roster, (lookup db.players m).isSome →
      ((lookup ((delete_team db teamname now).1).players m).map Player.team = some strFA ∧
       normalize_nick m ∈
         rosterOf (lookup ((delete_team db teamname now).1).teams (team_docid strFA)))) ∧
    lookup ((delete_team db teamname now).1).teams
      (team_docid (normalize_team_name (some teamname))) = none := by
  have hfa0 : ∀ teams0 : List (Str × Team),
      (match lookup db.teams (team_docid strFA) with
        | some fa => setDoc db.teams (team_docid strFA) { fa with name := strFA }
        | none => setDoc db.teams (team_docid strFA) { name := strFA, roster := [] }) = teams0 →
      (lookup teams0 (team_docid strFA)).isSome := by
    intro teams0 h0
    cases hl : lookup db.teams (team_docid strFA) with
    | some fa =>
      rw [hl] at h0
      rw [← h0, lookup_setDoc_self]
      rfl
    | none =>
      rw [hl] at h0
      rw [← h0, lookup_setDoc_self]
      rfl
  simp only [delete_team, ht]
  constructor
  · intro m hm hp
    have hinit := delete_team_fold_done now m t.roster
      { players := db.players,
        teams := match lookup db.teams (team_docid strFA) with
          | some fa => setDoc db.teams (team_docid strFA) { fa with name := strFA }
          | none => setDoc db.teams (team_docid strFA) { name := strFA, roster := [] },
        moved := [], errors := [] }
      hp (hfa0 _ rfl) hm
    refine ⟨hinit.1, ?_⟩
    rw [lookup_deleteDoc_ne _ _ _ hne]
    exact hinit.2
  · exact lookup_deleteDoc_self _ _

theorem delete_team_moves_roster_to_FA_witness :
    ((lookup ((delete_team dbDelTeam (str "Red") 5).1).players (str "bob")).map Player.team =
        some strFA ∧
      normalize_nick (str "bob") ∈
        rosterOf (lookup ((delete_team dbDelTeam (str "Red") 5).1).teams (team_docid strFA))) ∧
    lookup ((delete_team dbDelTeam (str "Red") 5).1).teams
      (team_docid (normalize_team_name (some (str "Red")))) = none :=
  have h := delete_team_moves_roster_to_FA dbDelTeam (str "Red") 5
    { name := str "Red", roster := [str "bob"] } (by decide) (by decide)
  ⟨h.1 (str "bob") (by decide) (by decide), h.2⟩

/-! ### Claim C6 -/

/-- The player documents written by `trade` are determined by the two
player reads done before any write: each document gets the *other*
player's original team, whether or not the roster updates succeed; the
alias table is untouched. -/
theorem trade_players_eq (db : DB) (n1 n2 : Str) (now : Nat) (p1 p2 : Player)
    (h1 : lookup db.players (resolve_nick db n1) = some p1)
    (h2 : lookup db.players (resolve_nick db n2) = some p2)
    (hne : resolve_nick db n1 ≠ resolve_nick db n2) :
    ((trade db n1 n2 now).1).players =
      setDoc (setDoc db.players (resolve_nick db n1)
          { p1 with team := p2.team, updated_at := now })
        (resolve_nick db n2) { p2 with team := p1.team, updated_at := now } ∧
    ((trade db n1 n2 now).1).aliases = db.aliases := by
  have hl : lookup (setDoc db.players (resolve_nick db n1)
      { p1 with team := p2.team, updated_at := now }) (resolve_nick db n2) = some p2 := by
    rw [lookup_setDoc_ne _ _ _ _ hne]
    exact h2
  simp only [trade, h1, h2, hl]
  cases htr : tradeRosters db.teams p1.team p2.team (resolve_nick db n1) (resolve_nick db n2) with
  | ok ts => exact ⟨rfl, rfl⟩
  | error ts => exact ⟨rfl, rfl⟩

/-- A roster `update` on an existing team document succeeds and replaces
the roster by `f` of it. -/
theorem rosterStep_ok (ts : List (Str × Team)) (tname : Str) (f : List Str → List Str)
    (T : Team) (hT : lookup ts (team_docid tname) = some T) :
    rosterStep ts tname f = .ok (setDoc ts (team_docid tname) { T with roster := f T.roster }) := by
  simp [rosterStep, hT]

/-- When no roster update raises, `tradeRosters` chains the four updates. -/
theorem tradeRosters_eq_ok (ts u1 u2 u3 u4 : List (Str × Team)) (t1 t2 i1 i2 : Str)
    (hb1 : t1.isEmpty = false) (hb2 : t2.isEmpty = false)
    (hs1 : rosterStep ts t1 (fun r => arrayRemove r (normalize_nick i1)) = .ok u1)
    (hs2 : rosterStep u1 t2 (fun r => arrayUnion r (normalize_nick i1)) = .ok u2)
    (hs3 : rosterStep u2 t2 (fun r => arrayRemove r (normalize_nick i2)) = .ok u3)
    (hs4 : rosterStep u3 t1 (fun r => arrayUnion r (normalize_nick i2)) = .ok u4) :
    tradeRosters ts t1 t2 i1 i2 = .ok u4 := by
  simp only [tradeRosters, hb1, hb2, Bool.false_eq_true, if_false, hs1, hs2, hs3, hs4]

/-- When both players' teams are nonempty and both team documents exist,
the four roster updates of `trade` all succeed; each player's id ends up
in the other team's roster, and — when the two teams are distinct — is
removed from its own original roster. -/
theorem tradeRosters_ok (ts : List (Str × Team)) (t1 t2 i1 i2 : Str) (T1 T2 : Team)
    (ht1 : t1 ≠ []) (ht2 : t2 ≠ [])
    (hT1 : lookup ts (team_docid t1) = some T1)
    (hT2 : lookup ts (team_docid t2) = some T2)
    (hne : normalize_nick i1 ≠ normalize_nick i2) :
    ∃ ts', tradeRosters ts t1 t2 i1 i2 = .ok ts' ∧
      normalize_nick i1 ∈ rosterOf (lookup ts' (team_docid t2)) ∧
      normalize_nick i2 ∈ rosterOf (lookup ts' (team_docid t1)) ∧
      (team_docid t1 ≠ team_docid t2 →
        normalize_nick i1 ∉ rosterOf (lookup ts' (team_docid t1)) ∧
        normalize_nick i2 ∉ rosterOf (lookup ts' (team_docid t2))) ∧
      (lookup ts' (team_docid t1)).isSome ∧ (lookup ts' (team_docid t2)).isSome := by
  have hb1 : t1.isEmpty = false := by
    cases t1 with
    | nil => exact absurd rfl ht1
    | cons a b => rfl
  have hb2 : t2.isEmpty = false := by
    cases t2 with
    | nil => exact absurd rfl ht2
    | cons a b => rfl
  have hu1 := rosterStep_ok ts t1 (fun r => arrayRemove r (normalize_nick i1)) T1 hT1
  by_cases hd : team_docid t1 = team_docid t2
  · have hl2 : lookup (setDoc ts (team_docid t1)
        { T1 with roster := arrayRemove T1.roster (normalize_nick i1) }) (team_docid t2) =
        some { T1 with roster := arrayRemove T1.roster (normalize_nick i1) } := by
      rw [← hd]
      exact lookup_setDoc_self _ _ _
    have hu2 := rosterStep_ok _ t2 (fun r => arrayUnion r (normalize_nick i1)) _ hl2
    have hl3 := lookup_setDoc_self (setDoc ts (team_docid t1)
        { T1 with roster := arrayRemove T1.roster (normalize_nick i1) }) (team_docid t2)
      { { T1 with roster := arrayRemove T1.roster (normalize_nick i1) } with
          roster := arrayUnion (arrayRemove T1.roster (normalize_nick i1)) (normalize_nick i1) }
    have hu3 := rosterStep_ok _ t2 (fun r => arrayRemove r (normalize_nick i2)) _ hl3
    have hl4 : lookup (setDoc (setDoc (setDoc ts (team_docid t1)
          { T1 with roster := arrayRemove T1.roster (normalize_nick i1) }) (team_docid t2)
          { T1 with roster := arrayUnion (arrayRemove T1.roster (normalize_nick i1)) (normalize_nick i1) })
        (team_docid t2)
        { T1 with roster := arrayRemove (arrayUnion (arrayRemove T1.roster (normalize_nick i1)) (normalize_nick i1)) (normalize_nick i2) })
        (team_docid t1) =
        some { T1 with roster := arrayRemove (arrayUnion (arrayRemove T1.roster (normalize_nick i1)) (normalize_nick i1)) (normalize_nick i2) } := by
      rw [hd]
      exact lookup_setDoc_self _ _ _
    have hu4 := rosterStep_ok _ t1 (fun r => arrayUnion r (normalize_nick i2)) _ hl4
    have htr := tradeRosters_eq_ok ts _ _ _ _ t1 t2 i1 i2 hb1 hb2 hu1 hu2 hu3 hu4
    refine ⟨_, htr, ?_, ?_, ?_, ?_, ?_⟩
    · rw [← hd, lookup_setDoc_self]
      exact mem_arrayUnion_of_mem _ _ _
        (mem_arrayRemove_of_mem _ _ _ (mem_arrayUnion_self _ _) hne)
    · rw [lookup_setDoc_self]
      exact mem_arrayUnion_self _ _
    · intro hcon
      exact absurd hd hcon
    · rw [lookup_setDoc_self]
      rfl
    · rw [← hd, lookup_setDoc_self]
      rfl
  · have hd' : team_docid t2 ≠ team_docid t1 := fun e => hd e.symm
    have hl2 : lookup (setDoc ts (team_docid t1)
        { T1 with roster := arrayRemove T1.roster (normalize_nick i1) }) (team_docid t2) =
        some T2 := by
      rw [lookup_setDoc_ne _ _ _ _ hd]
      exact hT2
    have hu2 := rosterStep_ok _ t2 (fun r => arrayUnion r (normalize_nick i1)) _ hl2
    have hl3 := lookup_setDoc_self (setDoc ts (team_docid t1)
        { T1 with roster := arrayRemove T1.roster (normalize_nick i1) }) (team_docid t2)
      { T2 with roster := arrayUnion T2.roster (normalize_nick i1) }
    have hu3 := rosterStep_ok _ t2 (fun r => arrayRemove r (normalize_nick i2)) _ hl3
    have hl4 : lookup (setDoc (setDoc (setDoc ts (team_docid t1)
          { T1 with roster := arrayRemove T1.roster (normalize_nick i1) }) (team_docid t2)
          { T2 with roster := arrayUnion T2.roster (normalize_nick i1) }) (team_docid t2)
        { T2 with roster := arrayRemove (arrayUnion T2.roster (normalize_nick i1)) (normalize_nick i2) })
        (team_docid t1) =
        some { T1 with roster := arrayRemove T1.roster (normalize_nick i1) } := by
      rw [lookup_setDoc_ne _ _ _ _ hd', lookup_setDoc_ne _ _ _ _ hd', lookup_setDoc_self]
    have hu4 := rosterStep_ok _ t1 (fun r => arrayUnion r (normalize_nick i2)) _ hl4
    have htr := tradeRosters_eq_ok ts _ _ _ _ t1 t2 i1 i2 hb1 hb2 hu1 hu2 hu3 hu4
    refine ⟨_, htr, ?_, ?_, ?_, ?_, ?_⟩
    · rw [lookup_setDoc_ne _ _ _ _ hd, lookup_setDoc_self]
      exact mem_arrayRemove_of_mem _ _ _ (mem_arrayUnion_self _ _) hne
    · rw [lookup_setDoc_self]
      exact mem_arrayUnion_self _ _
    · intro _
      constructor
      · rw [lookup_setDoc_self]
        exact not_mem_arrayUnion _ _ _ (not_mem_arrayRemove_self _ _) hne
      · rw [lookup_setDoc_ne _ _ _ _ hd, lookup_setDoc_self]
        exact not_mem_arrayRemove_self _ _
    · rw [lookup_setDoc_self]
      rfl
    · rw [lookup_setDoc_ne _ _ _ _ hd, lookup_setDoc_self]
      rfl

/-- Under the §3 invariant's well-formedness (nonempty team fields whose
team documents exist), `trade` succeeds and updates both rosters. -/
theorem trade_ok_and_teams (db : DB) (n1 n2 : Str) (now : Nat) (p1 p2 : Player) (T1 T2 : Team)
    (h1 : lookup db.players (resolve_nick db n1) = some p1)
    (h2 : lookup db.players (resolve_nick db n2) = some p2)
    (hne : resolve_nick db n1 ≠ resolve_nick db n2)
    (ht1 : p1.team ≠ []) (ht2 : p2.team ≠ [])
    (hT1 : lookup db.teams (team_docid p1.team) = some T1)
    (hT2 : lookup db.teams (team_docid p2.team) = some T2) :
    (trade db n1 n2 now).2 = TradeOutcome.ok ∧
    resolve_nick db n1 ∈ rosterOf (lookup ((trade db n1 n2 now).1).teams (team_docid p2.team)) ∧
    resolve_nick db n2 ∈ rosterOf (lookup ((trade db n1 n2 now).1).teams (team_docid p1.team)) ∧
    (team_docid p1.team ≠ team_docid p2.team →
      resolve_nick db n1 ∉ rosterOf (lookup ((trade db n1 n2 now).1).teams (team_docid p1.team)) ∧
      resolve_nick db n2 ∉ rosterOf (lookup ((trade db n1 n2 now).1).teams (team_docid p2.team))) ∧
    (lookup ((trade db n1 n2 now).1).teams (team_docid p1.team)).isSome ∧
    (lookup ((trade db n1 n2 now).1).teams (team_docid p2.team)).isSome := by
  have hn1 : normalize_nick (resolve_nick db n1) = resolve_nick db n1 := normalize_resolve_nick db n1
  have hn2 : normalize_nick (resolve_nick db n2) = resolve_nick db n2 := normalize_resolve_nick db n2
  have hnne : normalize_nick (resolve_nick db n1) ≠ normalize_nick (resolve_nick db n2) := by
    rw [hn1, hn2]
    exact hne
  obtain ⟨ts', htr, hm1, hm2, himp, hso1, hso2⟩ := tradeRosters_ok db.teams p1.team p2.team
    (resolve_nick db n1) (resolve_nick db n2) T1 T2 ht1 ht2 hT1 hT2 hnne
  rw [hn1] at hm1
  rw [hn2] at hm2
  have hl : lookup (setDoc db.players (resolve_nick db n1)
      { p1 with team := p2.team, updated_at := now }) (resolve_nick db n2) = some p2 := by
    rw [lookup_setDoc_ne _ _ _ _ hne]
    exact h2
  simp only [trade, h1, h2, hl, htr]
  refine ⟨trivial, hm1, hm2, ?_, hso1, hso2⟩
  intro hd
  obtain ⟨hni1, hni2⟩ := himp hd
  rw [hn1] at hni1
  rw [hn2] at hni2
  exact ⟨hni1, hni2⟩

/-- C6: trade reads both players' teams before any write and moves each
player to the other's *original* team, adding each id to the other team's
roster and (for distinct teams) removing it from its own; the outcome is
reported as success, and running the same trade a second time returns both
players' team fields to their original values. -/
theorem trade_swap_and_involution (db : DB) (n1 n2 : Str) (now now2 : Nat)
    (p1 p2 : Player) (T1 T2 : Team)
    (h1 : lookup db.players (resolve_nick db n1) = some p1)
    (h2 : lookup db.players (resolve_nick db n2) = some p2)
    (hne : resolve_nick db n1 ≠ resolve_nick db n2)
    (ht1 : p1.team ≠ []) (ht2 : p2.team ≠ [])
    (hT1 : lookup db.teams (team_docid p1.team) = some T1)
    (hT2 : lookup db.teams (team_docid p2.team) = some T2) :
    (trade db n1 n2 now).2 = TradeOutcome.ok ∧
    (lookup ((trade db n1 n2 now).1).players (resolve_nick db n1)).map Player.team =
      some p2.team ∧
    (lookup ((trade db n1 n2 now).1).players (resolve_nick db n2)).map Player.team =
      some p1.team ∧
    resolve_nick db n1 ∈ rosterOf (lookup ((trade db n1 n2 now).1).teams (team_docid p2.team)) ∧
    resolve_nick db n2 ∈ rosterOf (lookup ((trade db n1 n2 now).1).teams (team_docid p1.team)) ∧
    (team_docid p1.team ≠ team_docid p2.team →
      resolve_nick db n1 ∉ rosterOf (lookup ((trade db n1 n2 now).1).teams (team_docid p1.team)) ∧
      resolve_nick db n2 ∉ rosterOf (lookup ((trade db n1 n2 now).1).teams (team_docid p2.team))) ∧
    (lookup ((trade (trade db n1 n2 now).1 n1 n2 now2).1).players
        (resolve_nick db n1)).map Player.team = some p1.team ∧
    (lookup ((trade (trade db n1 n2 now).1 n1 n2 now2).1).players
        (resolve_nick db n2)).map Player.team = some p2.team := by
  obtain ⟨hpl, hal⟩ := trade_players_eq db n1 n2 now p1 p2 h1 h2 hne
  obtain ⟨hok, hm1, hm2, himp, hso1, hso2⟩ :=
    trade_ok_and_teams db n1 n2 now p1 p2 T1 T2 h1 h2 hne ht1 ht2 hT1 hT2
  have hA : lookup ((trade db n1 n2 now).1).players (resolve_nick db n1) =
      some { p1 with team := p2.team, updated_at := now } := by
    rw [hpl, lookup_setDoc_ne _ _ _ _ (fun e => hne e.symm), lookup_setDoc_self]
  have hB : lookup ((trade db n1 n2 now).1).players (resolve_nick db n2) =
      some { p2 with team := p1.team, updated_at := now } := by
    rw [hpl, lookup_setDoc_self]
  have hr1 : resolve_nick ((trade db n1 n2 now).1) n1 = resolve_nick db n1 :=
    resolve_nick_eq_of_aliases db _ hal n1
  have hr2 : resolve_nick ((trade db n1 n2 now).1) n2 = resolve_nick db n2 :=
    resolve_nick_eq_of_aliases db _ hal n2
  have h1' : lookup ((trade db n1 n2 now).1).players
      (resolve_nick ((trade db n1 n2 now).1) n1) =
      some { p1 with team := p2.team, updated_at := now } := by
    rw [hr1]
    exact hA
  have h2' : lookup ((trade db n1 n2 now).1).players
      (resolve_nick ((trade db n1 n2 now).1) n2) =
      some { p2 with team := p1.team, updated_at := now } := by
    rw [hr2]
    exact hB
  have hne' : resolve_nick ((trade db n1 n2 now).1) n1 ≠
      resolve_nick ((trade db n1 n2 now).1) n2 := by
    rw [hr1, hr2]
    exact hne
  obtain ⟨hpl2, hal2⟩ := trade_players_eq ((trade db n1 n2 now).1) n1 n2 now2 _ _ h1' h2' hne'
  rw [hr1, hr2] at hpl2
  have hA2 : lookup ((trade (trade db n1 n2 now).1 n1 n2 now2).1).players
      (resolve_nick db n1) =
      some { { p1 with team := p2.team, updated_at := now } with
        team := ({ p2 with team := p1.team, updated_at := now } : Player).team,
        updated_at := now2 } := by
    rw [hpl2, lookup_setDoc_ne _ _ _ _ (fun e => hne e.symm), lookup_setDoc_self]
  have hB2 : lookup ((trade (trade db n1 n2 now).1 n1 n2 now2).1).players
      (resolve_nick db n2) =
      some { { p2 with team := p1.team, updated_at := now } with
        team := ({ p1 with team := p2.team, updated_at := now } : Player).team,
        updated_at := now2 } := by
    rw [hpl2, lookup_setDoc_self]
  refine ⟨hok, ?_, ?_, hm1, hm2, himp, ?_, ?_⟩
  · rw [hA]
    rfl
  · rw [hB]
    rfl
  · rw [hA2]
    rfl
  · rw [hB2]
    rfl

theorem trade_swap_and_involution_witness :
    (trade dbTrade (str "alice") (str "bobby") 3).2 = TradeOutcome.ok ∧
    (lookup ((trade dbTrade (str "alice") (str "bobby") 3).1).players
        (resolve_nick dbTrade (str "alice"))).map Player.team =
      some (pFixture (str "bobby") (str "Blue")).team ∧
    (lookup ((trade dbTrade (str "alice") (str "bobby") 3).1).players
        (resolve_nick dbTrade (str "bobby"))).map Player.team =
      some (pFixture (str "alice") (str "Red")).team ∧
    resolve_nick dbTrade (str "alice") ∈
      rosterOf (lookup ((trade dbTrade (str "alice") (str "bobby") 3).1).teams
        (team_docid (pFixture (str "bobby") (str "Blue")).team)) ∧
    resolve_nick dbTrade (str "bobby") ∈
      rosterOf (lookup ((trade dbTrade (str "alice") (str "bobby") 3).1).teams
        (team_docid (pFixture (str "alice") (str "Red")).team)) ∧
    resolve_nick dbTrade (str "alice") ∉
      rosterOf (lookup ((trade dbTrade (str "alice") (str "bobby") 3).1).teams
        (team_docid (pFixture (str "alice") (str "Red")).team)) ∧
    resolve_nick dbTrade (str "bobby") ∉
      rosterOf (lookup ((trade dbTrade (str "alice") (str "bobby") 3).1).teams
        (team_docid (pFixture (str "bobby") (str "Blue")).team)) ∧
    (lookup ((trade (trade dbTrade (str "alice") (str "bobby") 3).1
        (str "alice") (str "bobby") 4).1).players
        (resolve_nick dbTrade (str "alice"))).map Player.team =
      some (pFixture (str "alice") (str "Red")).team ∧
    (lookup ((trade (trade dbTrade (str "alice") (str "bobby") 3).1
        (str "alice") (str "bobby") 4).1).players
        (resolve_nick dbTrade (str "bobby"))).map Player.team =
      some (pFixture (str "bobby") (str "Blue")).team :=
  have h := trade_swap_and_involution dbTrade (str "alice") (str "bobby") 3 4
    (pFixture (str "alice") (str "Red")) (pFixture (str "bobby") (str "Blue"))
    { name := str "Red", roster := [str "alice"] }
    { name := str "Blue", roster := [str "bobby"] }
    (by decide) (by decide) (by decide) (by decide) (by decide) (by decide) (by decide)
  ⟨h.1, h.2.1, h.2.2.1, h.2.2.2.1, h.2.2.2.2.1,
   (h.2.2.2.2.2.1 (by decide)).1, (h.2.2.2.2.2.1 (by decide)).2,
   h.2.2.2.2.2.2.1, h.2.2.2.2.2.2.2⟩

end Bot
